import Mathlib

/-!
Verification of the derivadex matching-engine repository: a shallow embedding
of the structured hasher (EIP-712 style keccak-256), the order book and the
engine facade, with theorems settling the specification claims.
-/

deriving instance DecidableEq for Except

namespace Derivadex

/- ## Keccak-256 (as used via web3::signing::keccak256) -/

def mask64 : Nat := 2 ^ 64 - 1

def rotl64 (x n : Nat) : Nat :=
  if n = 0 then x else (((x <<< n) &&& mask64) ||| (x >>> (64 - n)))

/-- The 1600-bit sponge state: lane (x, y) of the 5 by 5 sheet is field
a(x + 5 * y), each a 64-bit word. -/
structure KSt where
  a0 : Nat
  a1 : Nat
  a2 : Nat
  a3 : Nat
  a4 : Nat
  a5 : Nat
  a6 : Nat
  a7 : Nat
  a8 : Nat
  a9 : Nat
  a10 : Nat
  a11 : Nat
  a12 : Nat
  a13 : Nat
  a14 : Nat
  a15 : Nat
  a16 : Nat
  a17 : Nat
  a18 : Nat
  a19 : Nat
  a20 : Nat
  a21 : Nat
  a22 : Nat
  a23 : Nat
  a24 : Nat

def kst0 : KSt := ⟨0,0,0,0,0, 0,0,0,0,0, 0,0,0,0,0, 0,0,0,0,0, 0,0,0,0,0⟩

def keccakRound (s : KSt) (rc : Nat) : KSt :=
  let c0 := s.a0 ^^^ s.a5 ^^^ s.a10 ^^^ s.a15 ^^^ s.a20
  let c1 := s.a1 ^^^ s.a6 ^^^ s.a11 ^^^ s.a16 ^^^ s.a21
  let c2 := s.a2 ^^^ s.a7 ^^^ s.a12 ^^^ s.a17 ^^^ s.a22
  let c3 := s.a3 ^^^ s.a8 ^^^ s.a13 ^^^ s.a18 ^^^ s.a23
  let c4 := s.a4 ^^^ s.a9 ^^^ s.a14 ^^^ s.a19 ^^^ s.a24
  let d0 := c4 ^^^ rotl64 c1 1
  let d1 := c0 ^^^ rotl64 c2 1
  let d2 := c1 ^^^ rotl64 c3 1
  let d3 := c2 ^^^ rotl64 c4 1
  let d4 := c3 ^^^ rotl64 c0 1
  let t0 := s.a0 ^^^ d0
  let t1 := s.a1 ^^^ d1
  let t2 := s.a2 ^^^ d2
  let t3 := s.a3 ^^^ d3
  let t4 := s.a4 ^^^ d4
  let t5 := s.a5 ^^^ d0
  let t6 := s.a6 ^^^ d1
  let t7 := s.a7 ^^^ d2
  let t8 := s.a8 ^^^ d3
  let t9 := s.a9 ^^^ d4
  let t10 := s.a10 ^^^ d0
  let t11 := s.a11 ^^^ d1
  let t12 := s.a12 ^^^ d2
  let t13 := s.a13 ^^^ d3
  let t14 := s.a14 ^^^ d4
  let t15 := s.a15 ^^^ d0
  let t16 := s.a16 ^^^ d1
  let t17 := s.a17 ^^^ d2
  let t18 := s.a18 ^^^ d3
  let t19 := s.a19 ^^^ d4
  let t20 := s.a20 ^^^ d0
  let t21 := s.a21 ^^^ d1
  let t22 := s.a22 ^^^ d2
  let t23 := s.a23 ^^^ d3
  let t24 := s.a24 ^^^ d4
  let b0 := t0
  let b1 := rotl64 t6 44
  let b2 := rotl64 t12 43
  let b3 := rotl64 t18 21
  let b4 := rotl64 t24 14
  let b5 := rotl64 t3 28
  let b6 := rotl64 t9 20
  let b7 := rotl64 t10 3
  let b8 := rotl64 t16 45
  let b9 := rotl64 t22 61
  let b10 := rotl64 t1 1
  let b11 := rotl64 t7 6
  let b12 := rotl64 t13 25
  let b13 := rotl64 t19 8
  let b14 := rotl64 t20 18
  let b15 := rotl64 t4 27
  let b16 := rotl64 t5 36
  let b17 := rotl64 t11 10
  let b18 := rotl64 t17 15
  let b19 := rotl64 t23 56
  let b20 := rotl64 t2 62
  let b21 := rotl64 t8 55
  let b22 := rotl64 t14 39
  let b23 := rotl64 t15 41
  let b24 := rotl64 t21 2
  let e0 := b0 ^^^ ((b1 ^^^ mask64) &&& b2)
  let e1 := b1 ^^^ ((b2 ^^^ mask64) &&& b3)
  let e2 := b2 ^^^ ((b3 ^^^ mask64) &&& b4)
  let e3 := b3 ^^^ ((b4 ^^^ mask64) &&& b0)
  let e4 := b4 ^^^ ((b0 ^^^ mask64) &&& b1)
  let e5 := b5 ^^^ ((b6 ^^^ mask64) &&& b7)
  let e6 := b6 ^^^ ((b7 ^^^ mask64) &&& b8)
  let e7 := b7 ^^^ ((b8 ^^^ mask64) &&& b9)
  let e8 := b8 ^^^ ((b9 ^^^ mask64) &&& b5)
  let e9 := b9 ^^^ ((b5 ^^^ mask64) &&& b6)
  let e10 := b10 ^^^ ((b11 ^^^ mask64) &&& b12)
  let e11 := b11 ^^^ ((b12 ^^^ mask64) &&& b13)
  let e12 := b12 ^^^ ((b13 ^^^ mask64) &&& b14)
  let e13 := b13 ^^^ ((b14 ^^^ mask64) &&& b10)
  let e14 := b14 ^^^ ((b10 ^^^ mask64) &&& b11)
  let e15 := b15 ^^^ ((b16 ^^^ mask64) &&& b17)
  let e16 := b16 ^^^ ((b17 ^^^ mask64) &&& b18)
  let e17 := b17 ^^^ ((b18 ^^^ mask64) &&& b19)
  let e18 := b18 ^^^ ((b19 ^^^ mask64) &&& b15)
  let e19 := b19 ^^^ ((b15 ^^^ mask64) &&& b16)
  let e20 := b20 ^^^ ((b21 ^^^ mask64) &&& b22)
  let e21 := b21 ^^^ ((b22 ^^^ mask64) &&& b23)
  let e22 := b22 ^^^ ((b23 ^^^ mask64) &&& b24)
  let e23 := b23 ^^^ ((b24 ^^^ mask64) &&& b20)
  let e24 := b24 ^^^ ((b20 ^^^ mask64) &&& b21)
  ⟨e0 ^^^ rc, e1, e2, e3, e4, e5, e6, e7, e8, e9, e10, e11, e12, e13, e14, e15, e16, e17, e18, e19, e20, e21, e22, e23, e24⟩

def keccakRC : List Nat :=
  [0x1, 0x8082, 0x800000000000808a, 0x8000000080008000, 0x808b, 0x80000001,
   0x8000000080008081, 0x8000000000008009, 0x8a, 0x88, 0x80008009, 0x8000000a,
   0x8000808b, 0x800000000000008b, 0x8000000000008089, 0x8000000000008003,
   0x8000000000008002, 0x8000000000000080, 0x800a, 0x800000008000000a,
   0x8000000080008081, 0x8000000000008080, 0x80000001, 0x8000000080008008]

def keccakF (s : KSt) : KSt := keccakRC.foldl keccakRound s

/-- Keccak pad10*1 with domain byte 0x01 (original keccak, not SHA-3). -/
def keccakPad (msg : List Nat) : List Nat :=
  let rem := 136 - msg.length % 136
  if rem = 1 then msg ++ [0x81]
  else msg ++ 0x01 :: List.replicate (rem - 2) 0 ++ [0x80]

/-- Split a list into chunks of n elements, driven by fuel. -/
def chunksF (n : Nat) : Nat → List Nat → List (List Nat)
  | 0, _ => []
  | _, [] => []
  | fuel + 1, l => l.take n :: chunksF n fuel (l.drop n)

/-- Interpret up to 8 bytes little-endian as one 64-bit lane. -/
def bytesToLane (bs : List Nat) : Nat :=
  bs.foldr (fun b acc => acc * 256 + b) 0

def blockLane (blk : List Nat) (i : Nat) : Nat :=
  bytesToLane ((blk.drop (8 * i)).take 8)

def absorbBlock (s : KSt) (blk : List Nat) : KSt :=
  keccakF
    { s with
      a0 := s.a0 ^^^ blockLane blk 0,
      a1 := s.a1 ^^^ blockLane blk 1,
      a2 := s.a2 ^^^ blockLane blk 2,
      a3 := s.a3 ^^^ blockLane blk 3,
      a4 := s.a4 ^^^ blockLane blk 4,
      a5 := s.a5 ^^^ blockLane blk 5,
      a6 := s.a6 ^^^ blockLane blk 6,
      a7 := s.a7 ^^^ blockLane blk 7,
      a8 := s.a8 ^^^ blockLane blk 8,
      a9 := s.a9 ^^^ blockLane blk 9,
      a10 := s.a10 ^^^ blockLane blk 10,
      a11 := s.a11 ^^^ blockLane blk 11,
      a12 := s.a12 ^^^ blockLane blk 12,
      a13 := s.a13 ^^^ blockLane blk 13,
      a14 := s.a14 ^^^ blockLane blk 14,
      a15 := s.a15 ^^^ blockLane blk 15,
      a16 := s.a16 ^^^ blockLane blk 16 }

def laneBytes (x : Nat) : List Nat :=
  (List.range 8).map fun k => (x >>> (8 * k)) &&& 255

/-- keccak256 digest of a byte list, as the list of its 32 bytes. -/
def keccak256 (msg : List Nat) : List Nat :=
  let p := keccakPad msg
  let st := (chunksF 136 p.length p).foldl absorbBlock kst0
  laneBytes st.a0 ++ laneBytes st.a1 ++ laneBytes st.a2 ++ laneBytes st.a3

/-- Digest interpreted as a 256-bit big-endian number (the H256 value). -/
def bytesToNatBE (bs : List Nat) : Nat :=
  bs.foldl (fun acc b => acc * 256 + b) 0

def keccakN (msg : List Nat) : Nat := bytesToNatBE (keccak256 msg)

def strBytes (s : String) : List Nat := s.toList.map Char.toNat

/- ## Decimal (rust_decimal::Decimal, modelled as mantissa times 10^-scale)

The Rust type stores a 96-bit mantissa with a sign flag and a scale in 0..28;
all engine arithmetic on the money path stays far below those bounds, so the
embedding uses an unbounded integer mantissa. Comparisons, equality, min and
the arithmetic operators of rust_decimal are value-based and exact, which the
cross-multiplied forms below reproduce. -/

structure Dec where
  m : Int
  s : Nat
deriving DecidableEq, Repr

namespace Dec

def zero : Dec := ⟨0, 0⟩

/-- Value-based strict order, as rust_decimal Ord. -/
def ltv (a b : Dec) : Bool := a.m * 10 ^ b.s < b.m * 10 ^ a.s

/-- Value-based equality, as rust_decimal PartialEq. -/
def eqv (a b : Dec) : Bool := a.m * 10 ^ b.s = b.m * 10 ^ a.s

def lev (a b : Dec) : Bool := a.m * 10 ^ b.s ≤ b.m * 10 ^ a.s

/-- Addition rescales to the larger scale, as rust_decimal. -/
def add (a b : Dec) : Dec :=
  if a.s ≤ b.s then ⟨a.m * 10 ^ (b.s - a.s) + b.m, b.s⟩
  else ⟨a.m + b.m * 10 ^ (a.s - b.s), a.s⟩

def sub (a b : Dec) : Dec :=
  if a.s ≤ b.s then ⟨a.m * 10 ^ (b.s - a.s) - b.m, b.s⟩
  else ⟨a.m - b.m * 10 ^ (a.s - b.s), a.s⟩

def mul (a b : Dec) : Dec := ⟨a.m * b.m, a.s + b.s⟩

/-- std::cmp::min via rust_decimal Ord: returns the first argument on equality. -/
def minv (a b : Dec) : Dec := if lev a b then a else b

/-- rust_decimal is_sign_negative (negative-zero representations aside). -/
def is_sign_negative (a : Dec) : Bool := a.m < 0

/-- rust_decimal rescale(18) for scales up to 18 (larger scales truncate). -/
def rescale18 (a : Dec) : Dec :=
  if a.s ≤ 18 then ⟨a.m * 10 ^ (18 - a.s), 18⟩ else ⟨a.m.tdiv (10 ^ (a.s - 18)), 18⟩

/-- The Display form of a Decimal, as a character list: optional minus sign,
then the digits with a decimal point when the scale is positive (trailing
zeros kept, as rust_decimal prints). -/
def toChars (a : Dec) : List Char :=
  (if a.m < 0 then ['-'] else []) ++
    (if a.s = 0 then Nat.toDigits 10 a.m.natAbs
     else
       let ip := Nat.toDigits 10 (a.m.natAbs / 10 ^ a.s)
       let fd := Nat.toDigits 10 (a.m.natAbs % 10 ^ a.s)
       ip ++ '.' :: (List.replicate (a.s - fd.length) '0' ++ fd))

end Dec

/- ## U256::from_dec_str and decimal_to_u256 -/

/-- Parser core of U256::from_dec_str: digits only, overflow checked. -/
def fromDecStrAux : List Char → Nat → Option Nat
  | [], acc => some acc
  | c :: rest, acc =>
    if '0' ≤ c ∧ c ≤ '9' then
      let acc2 := acc * 10 + (c.toNat - 48)
      if acc2 < 2 ^ 256 then fromDecStrAux rest acc2 else none
    else none

def fromDecStr (cs : List Char) : Option Nat := fromDecStrAux cs 0

/-- decimal_to_u256 from orderbook/mod.rs: stringify then parse; the Rust
code unwraps the parse, so a parse failure is a panic, modelled as none. -/
def decimal_to_u256 (d : Dec) : Option Nat := fromDecStr (Dec.toChars d)

/- ## EIP-712 structured hashing (eip712.rs and the Order instance) -/

inductive Side where
  | Bid
  | Ask
deriving DecidableEq, Repr

structure Order where
  amount : Dec
  nonce : Nat
  price : Dec
  side : Side
  trader_address : Nat
  timestamp : Nat
deriving DecidableEq, Repr

structure Fill where
  maker_hash : Nat
  taker_hash : Nat
  fill_amount : Dec
  price : Dec
deriving DecidableEq, Repr

/-- 32-byte big-endian encoding of a U256 value. -/
def u256Bytes (n : Nat) : List Nat :=
  ((List.range 32).map fun i => (n >>> (8 * (31 - i))) &&& 255)

def ORDER_TYPE_HASH : List Nat :=
  keccak256 (strBytes "Order(uint256 amount,uint256 nonce,uint256 price,uint8 side,address traderAddress)")

def DOMAIN_TYPE_HASH : List Nat :=
  keccak256 (strBytes "EIP712Domain(string name,string version)")

def sideByte (s : Side) : Nat :=
  match s with
  | Side.Bid => 0
  | Side.Ask => 1

/-- EncodeDataable for Order: five 32-byte fields in declaration order; the
Decimal fields go through decimal_to_u256, whose panic propagates as none. -/
def Order.encode_data (o : Order) : Option (List Nat) := do
  let a ← decimal_to_u256 o.amount
  let p ← decimal_to_u256 o.price
  pure (u256Bytes a ++ u256Bytes o.nonce ++ u256Bytes p ++
        u256Bytes (sideByte o.side) ++ u256Bytes o.trader_address)

def Order.hash_struct (o : Order) : Option (List Nat) :=
  (Order.encode_data o).map fun d => keccak256 (ORDER_TYPE_HASH ++ d)

structure Eip712Domain where
  name : String
  version : String

def Eip712Domain.hash_struct (d : Eip712Domain) : List Nat :=
  keccak256 (DOMAIN_TYPE_HASH ++ keccak256 (strBytes d.name) ++ keccak256 (strBytes d.version))

def ddxDomain : Eip712Domain := ⟨"DDX take-home", "0.1.0"⟩

/-- Eip712::encode for an Order under a domain, as an H256 value. -/
def eip712EncodeIn (dom : Eip712Domain) (o : Order) : Option Nat :=
  (Order.hash_struct o).map fun sh =>
    keccakN (0x19 :: 0x01 :: (Eip712Domain.hash_struct dom ++ sh))

/-- The order hash as the OrderBook computes it (fixed DDX domain). -/
def eip712Encode (o : Order) : Option Nat := eip712EncodeIn ddxDomain o

/- ## Association-list models of the book's maps

BTreeMap (Decimal, u128) keys become sorted association lists under the
value-based key order; HashMap keys become association lists with lookup by
equality. Where Rust unwraps a get_mut or indexes a map, a missing key is a
panic, modelled as none. -/

def natEqB (a b : Nat) : Bool := a == b

def alLookup {κ : Type} {α : Type} (keq : κ → κ → Bool) : List (κ × α) → κ → Option α
  | [], _ => none
  | (k0, v0) :: r, k => if keq k0 k then some v0 else alLookup keq r k

def alRemove {κ : Type} {α : Type} (keq : κ → κ → Bool) : List (κ × α) → κ → List (κ × α)
  | [], _ => []
  | (k0, v0) :: r, k => if keq k0 k then r else (k0, v0) :: alRemove keq r k

def alModify {κ : Type} {α : Type} (keq : κ → κ → Bool) :
    List (κ × α) → κ → (α → α) → Option (List (κ × α))
  | [], _, _ => none
  | (k0, v0) :: r, k, f =>
    if keq k0 k then some ((k0, f v0) :: r)
    else (alModify keq r k f).map fun r2 => (k0, v0) :: r2

/-- BTreeMap insert on a sorted list: replace the value on an equal key
(keeping the stored key), otherwise place the new entry in key order. -/
def alInsert {κ : Type} {α : Type} (lt keq : κ → κ → Bool) :
    List (κ × α) → κ → α → List (κ × α)
  | [], k, v => [(k, v)]
  | (k0, v0) :: r, k, v =>
    if keq k0 k then (k0, v) :: r
    else if lt k k0 then (k, v) :: (k0, v0) :: r
    else (k0, v0) :: alInsert lt keq r k v

/-- HashMap insert: replace the value on an equal key, else append. -/
def hmInsert {α : Type} : List (Nat × α) → Nat → α → List (Nat × α)
  | [], k, v => [(k, v)]
  | (k0, v0) :: r, k, v => if k0 == k then (k0, v) :: r else (k0, v0) :: hmInsert r k v

/-- The entry(key).or_insert(ZERO) += x pattern on an aggregated depth map. -/
def aggAdd (lt : Dec → Dec → Bool) : List (Dec × Dec) → Dec → Dec → List (Dec × Dec)
  | [], k, x => [(k, Dec.add Dec.zero x)]
  | (k0, v0) :: r, k, x =>
    if Dec.eqv k0 k then (k0, Dec.add v0 x) :: r
    else if lt k k0 then (k, Dec.add Dec.zero x) :: (k0, v0) :: r
    else (k0, v0) :: aggAdd lt r k x

/- ## Price-time keys

The ask index is keyed by (price, timestamp) under the lexicographic order;
the bid index by (Reverse(price), timestamp), i.e. price descending. -/

def askKeyLt (k1 k2 : Dec × Nat) : Bool :=
  Dec.ltv k1.1 k2.1 || (Dec.eqv k1.1 k2.1 && k1.2 < k2.2)

def askKeyLe (k1 k2 : Dec × Nat) : Bool :=
  Dec.ltv k1.1 k2.1 || (Dec.eqv k1.1 k2.1 && k1.2 ≤ k2.2)

def bidKeyLt (k1 k2 : Dec × Nat) : Bool :=
  Dec.ltv k2.1 k1.1 || (Dec.eqv k1.1 k2.1 && k1.2 < k2.2)

def bidKeyLe (k1 k2 : Dec × Nat) : Bool :=
  Dec.ltv k2.1 k1.1 || (Dec.eqv k1.1 k2.1 && k1.2 ≤ k2.2)

def keyEqv (k1 k2 : Dec × Nat) : Bool := Dec.eqv k1.1 k2.1 && k1.2 == k2.2

/- ## The order book (orderbook/mod.rs)

OrderBook::new also fixes the EIP-712 domain to the DDX domain, which
eip712Encode bakes in. -/

structure OrderBook where
  asks : List ((Dec × Nat) × Order)
  bids : List ((Dec × Nat) × Order)
  hash_to_order : List (Nat × Order)
  agg_ask_amt : List (Dec × Dec)
  agg_bid_amt : List (Dec × Dec)
deriving DecidableEq, Repr

def emptyBook : OrderBook := ⟨[], [], [], [], []⟩

inductive OrderBookError where
  | DuplicateOrder (hash : Nat) (trader : Nat)
  | OrderNotFound (hash : Nat)
deriving DecidableEq, Repr

/-- The fill-collection loop shared by add_bid and add_ask: walk the crossing
candidates, stop at a self-order, hash the maker, take q = min(remaining,
maker.amount), stop after the fill that zeroes the taker. Returns the fills
and the taker's remaining amount. -/
def matchLoop (th trader : Nat) : List ((Dec × Nat) × Order) → Dec → Option (List Fill × Dec)
  | [], amt => some ([], amt)
  | (_, maker) :: rest, amt =>
    if maker.trader_address == trader then some ([], amt)
    else do
      let mh ← eip712Encode maker
      let q := Dec.minv amt maker.amount
      let amt2 := Dec.sub amt q
      if Dec.eqv amt2 Dec.zero then some ([⟨mh, th, q, maker.price⟩], amt2)
      else do
        let (fs, r) ← matchLoop th trader rest amt2
        some (⟨mh, th, q, maker.price⟩ :: fs, r)

/-- One iteration of the add_bid book-update loop. Note the partial branch
decrements the aggregated depth by the maker's full stored amount, not by
the fill amount (mirroring the source). -/
def applyAskFill (bk : OrderBook) (fill : Fill) : Option OrderBook := do
  let ask ← alLookup natEqB bk.hash_to_order fill.maker_hash
  if Dec.eqv ask.amount fill.fill_amount then do
    let asks2 := alRemove keyEqv bk.asks (ask.price, ask.timestamp)
    let h2 := alRemove natEqB bk.hash_to_order fill.maker_hash
    let ag ← alModify Dec.eqv bk.agg_ask_amt ask.price fun v => Dec.sub v ask.amount
    let v ← alLookup Dec.eqv ag ask.price
    let ag2 := if Dec.eqv v Dec.zero then alRemove Dec.eqv ag ask.price else ag
    some { bk with asks := asks2, hash_to_order := h2, agg_ask_amt := ag2 }
  else do
    let asks2 ← alModify keyEqv bk.asks (ask.price, ask.timestamp)
        fun o => { o with amount := Dec.sub o.amount fill.fill_amount }
    let ag ← alModify Dec.eqv bk.agg_ask_amt ask.price fun v => Dec.sub v ask.amount
    some { bk with asks := asks2, agg_ask_amt := ag }

def applyAskFills : OrderBook → List Fill → Option OrderBook
  | bk, [] => some bk
  | bk, f :: r => do applyAskFills (← applyAskFill bk f) r

/-- One iteration of the add_ask book-update loop. The source decrements the
aggregated bid depth by ask.amount, which at that point in add_ask is the
taker's remaining amount after matching, not the maker's amount. -/
def applyBidFill (remAsk : Dec) (bk : OrderBook) (fill : Fill) : Option OrderBook := do
  let bid ← alLookup natEqB bk.hash_to_order fill.maker_hash
  if Dec.eqv bid.amount fill.fill_amount then do
    let bids2 := alRemove keyEqv bk.bids (bid.price, bid.timestamp)
    let h2 := alRemove natEqB bk.hash_to_order fill.maker_hash
    let ag ← alModify Dec.eqv bk.agg_bid_amt bid.price fun v => Dec.sub v remAsk
    let v ← alLookup Dec.eqv ag bid.price
    let ag2 := if Dec.eqv v Dec.zero then alRemove Dec.eqv ag bid.price else ag
    some { bk with bids := bids2, hash_to_order := h2, agg_bid_amt := ag2 }
  else do
    let bids2 ← alModify keyEqv bk.bids (bid.price, bid.timestamp)
        fun o => { o with amount := Dec.sub o.amount fill.fill_amount }
    let ag ← alModify Dec.eqv bk.agg_bid_amt bid.price fun v => Dec.sub v remAsk
    some { bk with bids := bids2, agg_bid_amt := ag }

def applyBidFills (remAsk : Dec) : OrderBook → List Fill → Option OrderBook
  | bk, [] => some bk
  | bk, f :: r => do applyBidFills remAsk (← applyBidFill remAsk bk f) r

/-- OrderBook::add_bid. -/
def addBid (bk : OrderBook) (bid : Order) : Option (OrderBook × Except OrderBookError (List Fill)) := do
  let taker_hash ← eip712Encode bid
  let dup :=
    match alLookup natEqB bk.hash_to_order taker_hash with
    | some existing => existing.trader_address == bid.trader_address
    | none => false
  if dup then
    some (bk, .error (.DuplicateOrder taker_hash bid.trader_address))
  else do
    let (fills, rem) ← matchLoop taker_hash bid.trader_address
        (bk.asks.takeWhile fun kv => askKeyLe kv.1 (bid.price, bid.timestamp)) bid.amount
    let bk2 ← applyAskFills bk fills
    let bk3 :=
      if Dec.ltv Dec.zero rem then
        let restBid := { bid with amount := rem }
        { bk2 with
          bids := alInsert bidKeyLt keyEqv bk2.bids (bid.price, bid.timestamp) restBid,
          hash_to_order := hmInsert bk2.hash_to_order taker_hash restBid,
          agg_bid_amt := aggAdd (fun a b => Dec.ltv b a) bk2.agg_bid_amt bid.price rem }
      else bk2
    some (bk3, .ok fills)

/-- OrderBook::add_ask. -/
def addAsk (bk : OrderBook) (ask : Order) : Option (OrderBook × Except OrderBookError (List Fill)) := do
  let taker_hash ← eip712Encode ask
  let dup :=
    match alLookup natEqB bk.hash_to_order taker_hash with
    | some existing => existing.trader_address == ask.trader_address
    | none => false
  if dup then
    some (bk, .error (.DuplicateOrder taker_hash ask.trader_address))
  else do
    let (fills, rem) ← matchLoop taker_hash ask.trader_address
        (bk.bids.takeWhile fun kv => bidKeyLe kv.1 (ask.price, ask.timestamp)) ask.amount
    let bk2 ← applyBidFills rem bk fills
    let bk3 :=
      if Dec.ltv Dec.zero rem then
        let restAsk := { ask with amount := rem }
        { bk2 with
          asks := alInsert askKeyLt keyEqv bk2.asks (ask.price, ask.timestamp) restAsk,
          hash_to_order := hmInsert bk2.hash_to_order taker_hash restAsk,
          agg_ask_amt := aggAdd Dec.ltv bk2.agg_ask_amt ask.price rem }
      else bk2
    some (bk3, .ok fills)

/-- OrderBook::get_order. -/
def getOrder (bk : OrderBook) (h : Nat) : Except OrderBookError Order :=
  match alLookup natEqB bk.hash_to_order h with
  | some o => .ok o
  | none => .error (.OrderNotFound h)

/-- OrderBook::delete_order. -/
def deleteOrder (bk : OrderBook) (h : Nat) :
    Option (OrderBook × Except OrderBookError Unit) :=
  match alLookup natEqB bk.hash_to_order h with
  | some o =>
    match o.side with
    | Side.Bid => do
      let bids2 := alRemove keyEqv bk.bids (o.price, o.timestamp)
      let ag ← alModify Dec.eqv bk.agg_bid_amt o.price fun v => Dec.sub v o.amount
      let v ← alLookup Dec.eqv ag o.price
      let ag2 := if Dec.eqv v Dec.zero then alRemove Dec.eqv ag o.price else ag
      some ({ bk with
                bids := bids2
                agg_bid_amt := ag2
                hash_to_order := alRemove natEqB bk.hash_to_order h }, .ok ())
    | Side.Ask => do
      let asks2 := alRemove keyEqv bk.asks (o.price, o.timestamp)
      let ag ← alModify Dec.eqv bk.agg_ask_amt o.price fun v => Dec.sub v o.amount
      let v ← alLookup Dec.eqv ag o.price
      let ag2 := if Dec.eqv v Dec.zero then alRemove Dec.eqv ag o.price else ag
      some ({ bk with
                asks := asks2
                agg_ask_amt := ag2
                hash_to_order := alRemove natEqB bk.hash_to_order h }, .ok ())
  | none => some (bk, .error (.OrderNotFound h))

/-- Sum of resting ask amounts at a price level (the right-hand side of the
aggregated-depth invariant). -/
def sumAsksAt (bk : OrderBook) (p : Dec) : Dec :=
  bk.asks.foldl (fun acc kv => if Dec.eqv kv.2.price p then Dec.add acc kv.2.amount else acc)
    Dec.zero

/- ## The engine facade (engine/mod.rs) -/

structure Account where
  ddx_balance : Dec
  usd_balance : Dec
  trader_address : Nat
  ddx_book_outstanding : Dec
  usd_book_outstanding : Dec
deriving DecidableEq, Repr

inductive EngineError where
  | NegativeBalance (d : Dec)
  | AccountAlreadyExists (a : Nat)
  | AccountNotFound (a : Nat)
  | InsufficientBalance (free required : Dec)
  | OrderBookError (e : OrderBookError)
deriving DecidableEq, Repr

structure Engine where
  accounts : List (Nat × Account)
  hash_to_address : List (Nat × Nat)
  book : OrderBook
deriving DecidableEq, Repr

def emptyEngine : Engine := ⟨[], [], emptyBook⟩

/-- Engine::create_account. The source validates and rescales a local copy
but never inserts it into self.accounts. -/
def createAccount (e : Engine) (account : Account) : Engine × Except EngineError Nat :=
  if (alLookup natEqB e.accounts account.trader_address).isSome then
    (e, .error (.AccountAlreadyExists account.trader_address))
  else if Dec.is_sign_negative account.ddx_balance then
    (e, .error (.NegativeBalance account.ddx_balance))
  else if Dec.is_sign_negative account.usd_balance then
    (e, .error (.NegativeBalance account.usd_balance))
  else
    let _rescaled := { account with
                       usd_balance := Dec.rescale18 account.usd_balance
                       ddx_balance := Dec.rescale18 account.ddx_balance }
    (e, .ok account.trader_address)

/-- Engine::get_account. -/
def getAccount (e : Engine) (address : Nat) : Except EngineError Account :=
  match alLookup natEqB e.accounts address with
  | some acct => .ok acct
  | none => .error (.AccountNotFound address)

/-- Engine::delete_account. -/
def deleteAccount (e : Engine) (address : Nat) : Engine × Except EngineError Unit :=
  match alLookup natEqB e.accounts address with
  | some _ => ({ e with accounts := alRemove natEqB e.accounts address }, .ok ())
  | none => (e, .error (.AccountNotFound address))

/-- The per-fill taker and maker balance updates on the Bid path of
Engine::create_order, verbatim from the source: the taker's USD is debited
but no DDX is credited; the maker's DDX is debited with no USD credit. The
maker address comes from indexing hash_to_address, a panic when absent. -/
def settleBidFills (h2a : List (Nat × Nat)) (takerAddr : Nat) :
    List (Nat × Account) → List Fill → Option (List (Nat × Account))
  | accounts, [] => some accounts
  | accounts, fill :: rest => do
    let usd_cost := Dec.mul fill.fill_amount fill.price
    let accounts1 ← alModify natEqB accounts takerAddr fun t =>
      { t with
        usd_balance := Dec.sub t.usd_balance usd_cost
        usd_book_outstanding := Dec.sub t.usd_book_outstanding usd_cost }
    let makerAddr ← alLookup natEqB h2a fill.maker_hash
    let accounts2 ← alModify natEqB accounts1 makerAddr fun mk =>
      { mk with
        ddx_balance := Dec.sub mk.ddx_balance fill.fill_amount
        ddx_book_outstanding := Dec.sub mk.ddx_book_outstanding fill.fill_amount }
    settleBidFills h2a takerAddr accounts2 rest

/-- The per-fill updates on the Ask path, verbatim from the source: the
taker's DDX is debited with no USD credit, and the maker's DDX balance and
DDX outstanding are debited by the USD cost of the fill. -/
def settleAskFills (h2a : List (Nat × Nat)) (takerAddr : Nat) :
    List (Nat × Account) → List Fill → Option (List (Nat × Account))
  | accounts, [] => some accounts
  | accounts, fill :: rest => do
    let usd_cost := Dec.mul fill.fill_amount fill.price
    let accounts1 ← alModify natEqB accounts takerAddr fun t =>
      { t with
        ddx_balance := Dec.sub t.ddx_balance fill.fill_amount
        ddx_book_outstanding := Dec.sub t.ddx_book_outstanding fill.fill_amount }
    let makerAddr ← alLookup natEqB h2a fill.maker_hash
    let accounts2 ← alModify natEqB accounts1 makerAddr fun mk =>
      { mk with
        ddx_balance := Dec.sub mk.ddx_balance usd_cost
        ddx_book_outstanding := Dec.sub mk.ddx_book_outstanding usd_cost }
    settleAskFills h2a takerAddr accounts2 rest

/-- Engine::create_order. Indexing self.accounts with an unknown trader
address is a panic (none); so is a settlement lookup of a maker hash that
hash_to_address does not contain. -/
def createOrder (e : Engine) (order : Order) : Option (Engine × Except EngineError (List Fill)) := do
  let taker ← alLookup natEqB e.accounts order.trader_address
  match order.side with
  | Side.Bid =>
    let usd_cost := Dec.mul order.amount order.price
    if Dec.ltv (Dec.sub taker.usd_balance taker.usd_book_outstanding) usd_cost then
      some (e, .error (.InsufficientBalance taker.usd_balance usd_cost))
    else do
      let accounts1 ← alModify natEqB e.accounts order.trader_address fun t =>
        { t with usd_book_outstanding := Dec.add t.usd_book_outstanding usd_cost }
      let e1 := { e with accounts := accounts1 }
      let (book2, res) ← addBid e1.book order
      match res with
      | .error err => some ({ e1 with book := book2 }, .error (.OrderBookError err))
      | .ok fills => do
        let accounts2 ← settleBidFills e1.hash_to_address order.trader_address e1.accounts fills
        some ({ e1 with accounts := accounts2, book := book2 }, .ok fills)
  | Side.Ask =>
    let ddx_cost := order.amount
    if Dec.ltv (Dec.sub taker.ddx_balance taker.ddx_book_outstanding) ddx_cost then
      some (e, .error (.InsufficientBalance taker.ddx_balance ddx_cost))
    else do
      let accounts1 ← alModify natEqB e.accounts order.trader_address fun t =>
        { t with ddx_book_outstanding := Dec.add t.ddx_book_outstanding ddx_cost }
      let e1 := { e with accounts := accounts1 }
      let (book2, res) ← addAsk e1.book order
      match res with
      | .error err => some ({ e1 with book := book2 }, .error (.OrderBookError err))
      | .ok fills => do
        let accounts2 ← settleAskFills e1.hash_to_address order.trader_address e1.accounts fills
        some ({ e1 with accounts := accounts2, book := book2 }, .ok fills)

/-- Engine::get_order. -/
def engineGetOrder (e : Engine) (h : Nat) : Except EngineError Order :=
  match getOrder e.book h with
  | .ok o => .ok o
  | .error err => .error (.OrderBookError err)

/- ## Concrete scenario used by the failing-input theorems

Two traders: A holds 10 DDX and 10000 USD, B holds 5 DDX and 500 USD.
B's bid is 1 DDX at 100 USD; A's ask is 2 DDX at 100 USD. The hash literals
below are the EIP-712 digests of these orders (checked by theorems). The
engine pre-states carry the taker-hash-to-trader entries that step 4 of the
spec pipeline prescribes, so that settlement can find the maker. -/

def addrA : Nat := 0xA11CE

def addrB : Nat := 0xB0B

def hashAskA : Nat := 0xe81f51a3d44035aa61d2ebf80ef18db67e7812d44b90178fe26a324cfcaa750f

def hashBidB : Nat := 0xc2426fe7e0ae3f487e99afe1611bac817f2b93e348b0b28392130130f562a826

def bidB : Order := ⟨⟨1, 0⟩, 2, ⟨100, 0⟩, Side.Bid, addrB, 1⟩

/-- The same bid resubmitted later: only the timestamp differs. -/
def bidB2 : Order := { bidB with timestamp := 2 }

def askA : Order := ⟨⟨2, 0⟩, 1, ⟨100, 0⟩, Side.Ask, addrA, 3⟩

/-- B's bid with a timestamp after the resting ask, for the book scenario. -/
def bidB4 : Order := { bidB with timestamp := 4 }

def acctA : Account := ⟨⟨10, 0⟩, ⟨10000, 0⟩, addrA, Dec.zero, Dec.zero⟩

def acctB : Account := ⟨⟨5, 0⟩, ⟨500, 0⟩, addrB, Dec.zero, Dec.zero⟩

def engine0 : Engine :=
  ⟨[(addrA, acctA), (addrB, acctB)], [(hashAskA, addrA), (hashBidB, addrB)], emptyBook⟩

/-- The book after B's bid rests: price-time entry, hash directory entry and
one aggregated bid level of 1 at 100. -/
def book1 : OrderBook :=
  ⟨[], [((⟨100, 0⟩, 1), bidB)], [(hashBidB, bidB)], [], [(⟨100, 0⟩, ⟨1, 0⟩)]⟩

/-- The engine after B's bid was submitted: 100 USD reserved for B. -/
def engine1 : Engine :=
  { engine0 with
    accounts := [(addrA, acctA), (addrB, { acctB with usd_book_outstanding := ⟨100, 0⟩ })]
    book := book1 }

/-- The engine returned when the duplicate resubmission fails: the book and
error are as before the call, but B's reservation has doubled to 200. -/
def engine2leak : Engine :=
  { engine1 with
    accounts := [(addrA, acctA), (addrB, { acctB with usd_book_outstanding := ⟨200, 0⟩ })] }

def fillAskTaker : Fill := ⟨hashBidB, hashAskA, ⟨1, 0⟩, ⟨100, 0⟩⟩

def askARem : Order := { askA with amount := ⟨1, 0⟩ }

/-- The book after A's ask consumed B's bid and rests with remainder 1. -/
def book2 : OrderBook :=
  ⟨[((⟨100, 0⟩, 3), askARem)], [], [(hashAskA, askARem)], [(⟨100, 0⟩, ⟨1, 0⟩)], []⟩

/-- The engine after A's ask matched B's resting bid, exactly as the source
settles it: A pays 1 DDX and receives nothing; B's DDX balance and DDX
outstanding are debited by the 100 USD cost; B's USD reservation stays. -/
def engine2 : Engine :=
  { engine1 with
    accounts := [(addrA, ⟨⟨9, 0⟩, ⟨10000, 0⟩, addrA, ⟨1, 0⟩, ⟨0, 0⟩⟩),
                 (addrB, ⟨⟨-95, 0⟩, ⟨500, 0⟩, addrB, ⟨-100, 0⟩, ⟨100, 0⟩⟩)]
    book := book2 }

/-- The book after A's ask rests alone (book-level scenario). -/
def bookS1 : OrderBook :=
  ⟨[((⟨100, 0⟩, 3), askA)], [], [(hashAskA, askA)], [(⟨100, 0⟩, ⟨2, 0⟩)], []⟩

def fillBidTaker : Fill := ⟨hashAskA, hashBidB, ⟨1, 0⟩, ⟨100, 0⟩⟩

/-- The book after B's bid partially fills A's resting ask: the price-time
entry holds the reduced amount 1, the hash directory still holds amount 2,
and the aggregated ask depth at 100 was driven to 0 without key removal. -/
def bookS2 : OrderBook :=
  ⟨[((⟨100, 0⟩, 3), askARem)], [], [(hashAskA, askA)], [(⟨100, 0⟩, ⟨0, 0⟩)], []⟩

/- ## Spec-side matching traversal (for the refinement claim C7)

These definitions follow the wording of the spec, section 4.2: traverse the
opposite side from the best price; stop at the first non-crossing price or
the first self-order; take q = min(remaining, maker amount) at the maker's
resting price; stop once the remaining amount reaches zero. -/

/-- Spec traversal for a taker bid over the resting asks listed in ascending
(price, timestamp) order. -/
def specBidLoop (bidPrice : Dec) (th trader : Nat) : List Order → Dec → Option (List Fill)
  | [], _ => some []
  | ask :: rest, remaining =>
    if Dec.ltv bidPrice ask.price then some []
    else if ask.trader_address == trader then some []
    else do
      let mh ← eip712Encode ask
      let q := Dec.minv remaining ask.amount
      let rem2 := Dec.sub remaining q
      let fs ← if Dec.eqv rem2 Dec.zero then some [] else specBidLoop bidPrice th trader rest rem2
      some (⟨mh, th, q, ask.price⟩ :: fs)

/-- Spec traversal for a taker ask over the resting bids listed in
descending price order (ascending timestamp within a price). -/
def specAskLoop (askPrice : Dec) (th trader : Nat) : List Order → Dec → Option (List Fill)
  | [], _ => some []
  | bid :: rest, remaining =>
    if Dec.ltv bid.price askPrice then some []
    else if bid.trader_address == trader then some []
    else do
      let mh ← eip712Encode bid
      let q := Dec.minv remaining bid.amount
      let rem2 := Dec.sub remaining q
      let fs ← if Dec.eqv rem2 Dec.zero then some [] else specAskLoop askPrice th trader rest rem2
      some (⟨mh, th, q, bid.price⟩ :: fs)

/-- Spec fills for a taker bid: hash the taker, then traverse the asks. -/
def specBidFills (asks : List Order) (bid : Order) : Option (List Fill) := do
  let th ← eip712Encode bid
  specBidLoop bid.price th bid.trader_address asks bid.amount

/-- Spec fills for a taker ask: hash the taker, then traverse the bids. -/
def specAskFills (bids : List Order) (ask : Order) : Option (List Fill) := do
  let th ← eip712Encode ask
  specAskLoop ask.price th ask.trader_address bids ask.amount

/-- An order whose amount has a nonzero fractional part (1.5 DDX). -/
def fracOrder : Order := ⟨⟨15, 1⟩, 7, ⟨100, 0⟩, Side.Bid, addrB, 9⟩

end Derivadex

namespace Derivadex

set_option maxRecDepth 1000000

set_option maxHeartbeats 16000000

/-- Sanity check of the keccak embedding against the standard empty-input
keccak-256 digest. -/
theorem keccak256_empty_vector :
    keccakN (strBytes "") =
      0xc5d2460186f7233c927e7db2dcc703c0e500b653ca82273b7bfad8045d85a470 := by decide

/-- The hash literals used by the scenario states are the EIP-712 digests of
the scenario orders (and resubmissions hash identically, the timestamp not
being a hashed field). -/
theorem scenario_hashes :
    eip712Encode askA = some hashAskA ∧ eip712Encode bidB = some hashBidB ∧
    eip712Encode bidB2 = some hashBidB ∧ eip712Encode bidB4 = some hashBidB := by decide

/-- Claim C9: the order with amount 1234, nonce 12, price 5432, side Bid and
trader 0x3A880652F47bFaa771908C07Dd8673A787dAEd3A hashes, under the domain
with name DDX take-home and version 0.1.0, to the 32-byte digest
0x15a7b83cc86b50aaa2fa0c0871d5dbaae62f116436291e976c84b034b58cb728. -/
theorem order_hash_test_vector :
    eip712Encode
      { amount := ⟨1234, 0⟩, nonce := 12, price := ⟨5432, 0⟩, side := Side.Bid,
        trader_address := 0x3A880652F47bFaa771908C07Dd8673A787dAEd3A, timestamp := 0 } =
      some 0x15a7b83cc86b50aaa2fa0c0871d5dbaae62f116436291e976c84b034b58cb728 := by decide

/-- Claim C1 (code bug): after B's bid rests with a 100 USD reservation,
resubmitting the same order fails in book.add with DuplicateOrder, but the
reservation taken in step 3 is not undone: the engine is left with B's
usd_book_outstanding at 200 instead of the pre-call 100, so the post-state
differs from the pre-state on an error path. -/
theorem create_order_duplicate_leaves_reservation :
    createOrder engine0 bidB = some (engine1, .ok []) ∧
    createOrder engine1 bidB2 =
      some (engine2leak, .error (.OrderBookError (.DuplicateOrder hashBidB addrB))) ∧
    engine2leak ≠ engine1 ∧
    alLookup natEqB engine2leak.accounts addrB =
      some { acctB with usd_book_outstanding := ⟨200, 0⟩ } := by decide

/-- Claim C2 (code bug): a successful ask submission that fills against B's
resting bid settles wrongly: taker A's DDX is debited with no USD credit
(usd_balance stays 10000), and maker B's DDX balance is debited by the USD
cost 100 (5 - 100 = -95) instead of B paying USD and receiving 1 DDX; B's
100 USD reservation is never released. -/
theorem create_order_fill_settlement_wrong :
    createOrder engine1 askA = some (engine2, .ok [fillAskTaker]) ∧
    alLookup natEqB engine2.accounts addrA =
      some ⟨⟨9, 0⟩, ⟨10000, 0⟩, addrA, ⟨1, 0⟩, ⟨0, 0⟩⟩ ∧
    alLookup natEqB engine2.accounts addrB =
      some ⟨⟨-95, 0⟩, ⟨500, 0⟩, addrB, ⟨-100, 0⟩, ⟨100, 0⟩⟩ := by decide

/-- Claim C3 (code bug): after A's ask of 2 at 100 rests and B's bid of 1
partially fills it, the remaining resting amount at price 100 is 1, but the
aggregated ask depth at 100 holds 0: the partial-fill branch subtracted the
maker's full stored amount instead of the fill amount. -/
theorem agg_depth_wrong_after_partial_fill :
    addAsk emptyBook askA = some (bookS1, .ok []) ∧
    addBid bookS1 bidB4 = some (bookS2, .ok [fillBidTaker]) ∧
    alLookup Dec.eqv bookS2.agg_ask_amt ⟨100, 0⟩ = some ⟨0, 0⟩ ∧
    sumAsksAt bookS2 ⟨100, 0⟩ = ⟨1, 0⟩ ∧
    Dec.eqv ⟨0, 0⟩ ⟨1, 0⟩ = false := by decide

/-- Claim C4 (code bug): after the same partial fill, the price-time index
holds the maker with its reduced amount 1, but get_order on the maker's hash
still returns the original record with amount 2: the hash directory is not
updated on partial fills. -/
theorem hash_directory_stale_after_partial_fill :
    addBid bookS1 bidB4 = some (bookS2, .ok [fillBidTaker]) ∧
    getOrder bookS2 hashAskA = .ok askA ∧
    alLookup keyEqv bookS2.asks (⟨100, 0⟩, 3) = some askARem ∧
    askA.amount = ⟨2, 0⟩ ∧ askARem.amount = ⟨1, 0⟩ ∧
    Dec.eqv ⟨2, 0⟩ ⟨1, 0⟩ = false := by decide

/-- Claim C5 (code bug): create_account on a fresh engine accepts A's valid
account and returns its address, but stores nothing: the engine state is
unchanged and a subsequent get_account returns AccountNotFound. -/
theorem create_account_does_not_store :
    createAccount emptyEngine acctA = (emptyEngine, .ok addrA) ∧
    Dec.is_sign_negative acctA.ddx_balance = false ∧
    Dec.is_sign_negative acctA.usd_balance = false ∧
    getAccount emptyEngine addrA = .error (.AccountNotFound addrA) := by decide

/-- Claim C6 (code bug): create_order for a trader with no stored account
indexes self.accounts and panics (modelled as none) instead of returning the
AccountNotFound error. -/
theorem create_order_unknown_account_panics :
    createOrder emptyEngine bidB = none ∧
    alLookup natEqB emptyEngine.accounts bidB.trader_address = none := by decide

theorem Dec.ltv_asymm {a b : Dec} (h : Dec.ltv a b = true) : Dec.ltv b a = false := by
  simp only [Dec.ltv, decide_eq_true_eq, decide_eq_false_iff_not] at *
  omega

theorem Dec.eqv_ltv_left {a b : Dec} (h : Dec.eqv a b = true) : Dec.ltv a b = false := by
  simp only [Dec.eqv, Dec.ltv, decide_eq_true_eq, decide_eq_false_iff_not] at *
  omega

theorem Dec.eqv_ltv_right {a b : Dec} (h : Dec.eqv a b = true) : Dec.ltv b a = false := by
  simp only [Dec.eqv, Dec.ltv, decide_eq_true_eq, decide_eq_false_iff_not] at *
  omega

theorem Dec.ltv_total {a b : Dec} (h1 : Dec.ltv a b = false) (h2 : Dec.eqv a b = false) :
    Dec.ltv b a = true := by
  simp only [Dec.eqv, Dec.ltv, decide_eq_true_eq, decide_eq_false_iff_not] at *
  omega

theorem matchLoop_takeWhile_eq_specBid (th trader : Nat) (bp : Dec) (bt : Nat) :
    ∀ (asks : List ((Dec × Nat) × Order)) (amt : Dec),
      (∀ kv ∈ asks, kv.1 = (kv.2.price, kv.2.timestamp)) →
      (∀ kv ∈ asks, kv.2.timestamp ≤ bt) →
      (matchLoop th trader (asks.takeWhile fun kv => askKeyLe kv.1 (bp, bt)) amt).map Prod.fst
        = specBidLoop bp th trader (asks.map Prod.snd) amt
  | [], amt, _, _ => by simp [matchLoop, specBidLoop]
  | (k, mk) :: rest, amt, hkeys, hts => by
    have hk : k = (mk.price, mk.timestamp) := hkeys (k, mk) (List.mem_cons_self _ _)
    have ht : mk.timestamp ≤ bt := hts (k, mk) (List.mem_cons_self _ _)
    have hkeys2 : ∀ kv ∈ rest, kv.1 = (kv.2.price, kv.2.timestamp) :=
      fun kv hm => hkeys kv (List.mem_cons_of_mem _ hm)
    have hts2 : ∀ kv ∈ rest, kv.2.timestamp ≤ bt :=
      fun kv hm => hts kv (List.mem_cons_of_mem _ hm)
    subst hk
    cases hle : askKeyLe (mk.price, mk.timestamp) (bp, bt) with
    | true =>
      have hnp : Dec.ltv bp mk.price = false := by
        simp only [askKeyLe, Bool.or_eq_true, Bool.and_eq_true, decide_eq_true_eq] at hle
        rcases hle with h1 | ⟨h1, _⟩
        · exact Dec.ltv_asymm h1
        · exact Dec.eqv_ltv_right h1
      simp only [List.takeWhile_cons, hle, if_true, List.map_cons]
      cases htr : (mk.trader_address == trader) with
      | true => simp [matchLoop, specBidLoop, htr, hnp]
      | false =>
        simp only [matchLoop, specBidLoop, htr, hnp, Bool.false_eq_true, if_false]
        cases heip : eip712Encode mk with
        | none => simp
        | some mh =>
          cases hz : Dec.eqv (Dec.sub amt (Dec.minv amt mk.amount)) Dec.zero with
          | true => simp [hz]
          | false =>
            have IH := matchLoop_takeWhile_eq_specBid th trader bp bt rest
              (Dec.sub amt (Dec.minv amt mk.amount)) hkeys2 hts2
            cases hm : matchLoop th trader
                (rest.takeWhile fun kv => askKeyLe kv.1 (bp, bt))
                (Dec.sub amt (Dec.minv amt mk.amount)) with
            | none =>
              rw [hm] at IH
              simp [hz, hm, ← IH]
            | some pr =>
              rw [hm] at IH
              simp [hz, hm, ← IH]
    | false =>
      have h1 : Dec.ltv mk.price bp = false := by
        cases hx : Dec.ltv mk.price bp
        · rfl
        · rw [show askKeyLe (mk.price, mk.timestamp) (bp, bt) = true by simp [askKeyLe, hx]] at hle
          simp at hle
      have h3 : Dec.eqv mk.price bp = false := by
        cases hx : Dec.eqv mk.price bp
        · rfl
        · rw [show askKeyLe (mk.price, mk.timestamp) (bp, bt) = true by simp [askKeyLe, hx, ht]] at hle
          simp at hle
      have hp : Dec.ltv bp mk.price = true := Dec.ltv_total h1 h3
      simp only [List.takeWhile_cons, hle, Bool.false_eq_true, if_false, List.map_cons]
      simp [matchLoop, specBidLoop, hp]

theorem Dec.eqv_symm (a b : Dec) : Dec.eqv a b = Dec.eqv b a := by
  simp only [Dec.eqv]
  exact decide_eq_decide.mpr ⟨Eq.symm, Eq.symm⟩

theorem matchLoop_takeWhile_eq_specAsk (th trader : Nat) (ap : Dec) (atk : Nat) :
    ∀ (bids : List ((Dec × Nat) × Order)) (amt : Dec),
      (∀ kv ∈ bids, kv.1 = (kv.2.price, kv.2.timestamp)) →
      (∀ kv ∈ bids, kv.2.timestamp ≤ atk) →
      (matchLoop th trader (bids.takeWhile fun kv => bidKeyLe kv.1 (ap, atk)) amt).map Prod.fst
        = specAskLoop ap th trader (bids.map Prod.snd) amt
  | [], amt, _, _ => by simp [matchLoop, specAskLoop]
  | (k, mk) :: rest, amt, hkeys, hts => by
    have hk : k = (mk.price, mk.timestamp) := hkeys (k, mk) (List.mem_cons_self _ _)
    have ht : mk.timestamp ≤ atk := hts (k, mk) (List.mem_cons_self _ _)
    have hkeys2 : ∀ kv ∈ rest, kv.1 = (kv.2.price, kv.2.timestamp) :=
      fun kv hm => hkeys kv (List.mem_cons_of_mem _ hm)
    have hts2 : ∀ kv ∈ rest, kv.2.timestamp ≤ atk :=
      fun kv hm => hts kv (List.mem_cons_of_mem _ hm)
    subst hk
    cases hle : bidKeyLe (mk.price, mk.timestamp) (ap, atk) with
    | true =>
      have hnp : Dec.ltv mk.price ap = false := by
        simp only [bidKeyLe, Bool.or_eq_true, Bool.and_eq_true, decide_eq_true_eq] at hle
        rcases hle with h1 | ⟨h1, _⟩
        · exact Dec.ltv_asymm h1
        · exact Dec.eqv_ltv_left h1
      simp only [List.takeWhile_cons, hle, if_true, List.map_cons]
      cases htr : (mk.trader_address == trader) with
      | true => simp [matchLoop, specAskLoop, htr, hnp]
      | false =>
        simp only [matchLoop, specAskLoop, htr, hnp, Bool.false_eq_true, if_false]
        cases heip : eip712Encode mk with
        | none => simp
        | some mh =>
          cases hz : Dec.eqv (Dec.sub amt (Dec.minv amt mk.amount)) Dec.zero with
          | true => simp [hz]
          | false =>
            have IH := matchLoop_takeWhile_eq_specAsk th trader ap atk rest
              (Dec.sub amt (Dec.minv amt mk.amount)) hkeys2 hts2
            cases hm : matchLoop th trader
                (rest.takeWhile fun kv => bidKeyLe kv.1 (ap, atk))
                (Dec.sub amt (Dec.minv amt mk.amount)) with
            | none =>
              rw [hm] at IH
              simp [hz, hm, ← IH]
            | some pr =>
              rw [hm] at IH
              simp [hz, hm, ← IH]
    | false =>
      have h1 : Dec.ltv ap mk.price = false := by
        cases hx : Dec.ltv ap mk.price
        · rfl
        · rw [show bidKeyLe (mk.price, mk.timestamp) (ap, atk) = true by simp [bidKeyLe, hx]] at hle
          simp at hle
      have h3 : Dec.eqv mk.price ap = false := by
        cases hx : Dec.eqv mk.price ap
        · rfl
        · rw [show bidKeyLe (mk.price, mk.timestamp) (ap, atk) = true by simp [bidKeyLe, hx, ht]] at hle
          simp at hle
      have hp : Dec.ltv mk.price ap = true :=
        Dec.ltv_total h1 ((Dec.eqv_symm ap mk.price).trans h3)
      simp only [List.takeWhile_cons, hle, Bool.false_eq_true, if_false, List.map_cons]
      simp [matchLoop, specAskLoop, hp]

/-- Claim C7: for a taker bid against resting asks whose timestamps do not
exceed the taker's, listed in ascending (price, timestamp) order, add_bid
produces exactly the fills of the spec traversal: stop at the first ask
priced above the bid, at the first self-order, or once the taker is
exhausted; each fill takes min(remaining, maker amount) at the maker's
resting price. Symmetrically for a taker ask over the bids in descending
price order. -/
theorem add_follows_price_time (bk : OrderBook) (o : Order) (bk2 : OrderBook) (fills : List Fill)
    (hkA : ∀ kv ∈ bk.asks, kv.1 = (kv.2.price, kv.2.timestamp))
    (htA : ∀ kv ∈ bk.asks, kv.2.timestamp ≤ o.timestamp)
    (hsA : bk.asks.Pairwise fun kv1 kv2 => askKeyLt kv1.1 kv2.1 = true)
    (hkB : ∀ kv ∈ bk.bids, kv.1 = (kv.2.price, kv.2.timestamp))
    (htB : ∀ kv ∈ bk.bids, kv.2.timestamp ≤ o.timestamp)
    (hsB : bk.bids.Pairwise fun kv1 kv2 => bidKeyLt kv1.1 kv2.1 = true) :
    (addBid bk o = some (bk2, .ok fills) → specBidFills (bk.asks.map Prod.snd) o = some fills) ∧
    (addAsk bk o = some (bk2, .ok fills) → specAskFills (bk.bids.map Prod.snd) o = some fills) := by
  constructor
  · intro h
    rw [addBid] at h
    cases heip : eip712Encode o with
    | none => rw [heip] at h; simp at h
    | some th =>
      rw [heip] at h
      simp only [Option.bind_eq_bind, Option.some_bind] at h
      rw [specBidFills, heip]
      simp only [Option.bind_eq_bind, Option.some_bind]
      cases hdup : alLookup natEqB bk.hash_to_order th with
      | none =>
        rw [hdup] at h
        simp at h
        cases hm : matchLoop th o.trader_address
            (bk.asks.takeWhile fun kv => askKeyLe kv.1 (o.price, o.timestamp)) o.amount with
        | none => rw [hm] at h; simp at h
        | some pr =>
          rw [hm] at h
          have IH := matchLoop_takeWhile_eq_specBid th o.trader_address o.price o.timestamp
            bk.asks o.amount hkA htA
          rw [hm] at IH
          rw [← IH]
          simp at h ⊢
          cases hap : applyAskFills bk pr.1 with
          | none => rw [hap] at h; simp at h
          | some bk3 =>
            rw [hap] at h
            simp at h
            exact h.2
      | some ex =>
        rw [hdup] at h
        simp at h
        by_cases hsame : ex.trader_address = o.trader_address
        · rw [if_pos hsame] at h; simp at h
        · rw [if_neg hsame] at h
          cases hm : matchLoop th o.trader_address
              (bk.asks.takeWhile fun kv => askKeyLe kv.1 (o.price, o.timestamp)) o.amount with
          | none => rw [hm] at h; simp at h
          | some pr =>
            rw [hm] at h
            have IH := matchLoop_takeWhile_eq_specBid th o.trader_address o.price o.timestamp
              bk.asks o.amount hkA htA
            rw [hm] at IH
            rw [← IH]
            simp at h ⊢
            cases hap : applyAskFills bk pr.1 with
            | none => rw [hap] at h; simp at h
            | some bk3 =>
              rw [hap] at h
              simp at h
              exact h.2
  · intro h
    rw [addAsk] at h
    cases heip : eip712Encode o with
    | none => rw [heip] at h; simp at h
    | some th =>
      rw [heip] at h
      simp only [Option.bind_eq_bind, Option.some_bind] at h
      rw [specAskFills, heip]
      simp only [Option.bind_eq_bind, Option.some_bind]
      cases hdup : alLookup natEqB bk.hash_to_order th with
      | none =>
        rw [hdup] at h
        simp at h
        cases hm : matchLoop th o.trader_address
            (bk.bids.takeWhile fun kv => bidKeyLe kv.1 (o.price, o.timestamp)) o.amount with
        | none => rw [hm] at h; simp at h
        | some pr =>
          rw [hm] at h
          have IH := matchLoop_takeWhile_eq_specAsk th o.trader_address o.price o.timestamp
            bk.bids o.amount hkB htB
          rw [hm] at IH
          rw [← IH]
          simp at h ⊢
          cases hap : applyBidFills pr.2 bk pr.1 with
          | none => rw [hap] at h; simp at h
          | some bk3 =>
            rw [hap] at h
            simp at h
            exact h.2
      | some ex =>
        rw [hdup] at h
        simp at h
        by_cases hsame : ex.trader_address = o.trader_address
        · rw [if_pos hsame] at h; simp at h
        · rw [if_neg hsame] at h
          cases hm : matchLoop th o.trader_address
              (bk.bids.takeWhile fun kv => bidKeyLe kv.1 (o.price, o.timestamp)) o.amount with
          | none => rw [hm] at h; simp at h
          | some pr =>
            rw [hm] at h
            have IH := matchLoop_takeWhile_eq_specAsk th o.trader_address o.price o.timestamp
              bk.bids o.amount hkB htB
            rw [hm] at IH
            rw [← IH]
            simp at h ⊢
            cases hap : applyBidFills pr.2 bk pr.1 with
            | none => rw [hap] at h; simp at h
            | some bk3 =>
              rw [hap] at h
              simp at h
              exact h.2


/-- Witness for the C7 theorem at the one-ask book: its hypotheses hold
there and a crossing bid's fills equal the spec traversal's. -/
theorem add_follows_price_time_witness :
    specBidFills (bookS1.asks.map Prod.snd) bidB4 = some [fillBidTaker] :=
  (add_follows_price_time bookS1 bidB4 bookS2 [fillBidTaker] (by decide) (by decide) (by decide)
    (by decide) (by decide) (by decide)).1 (by decide)

/-- Claim C8: the structured hash is a function of exactly amount, nonce,
price, side and traderAddress: two orders agreeing on those five fields have
the same digest whatever their timestamps, the timestamp not being a hashed
field. -/
theorem hash_depends_only_on_five_fields (o1 o2 : Order)
    (ha : o1.amount = o2.amount) (hn : o1.nonce = o2.nonce) (hp : o1.price = o2.price)
    (hs : o1.side = o2.side) (htr : o1.trader_address = o2.trader_address) :
    eip712Encode o1 = eip712Encode o2 := by
  cases o1
  cases o2
  simp_all
  rfl

/-- Witness for the C8 theorem: the resubmitted bid differs from the
original only in timestamp and hashes identically. -/
theorem hash_depends_only_on_five_fields_witness :
    (bidB.amount = bidB2.amount ∧ bidB.nonce = bidB2.nonce ∧ bidB.price = bidB2.price ∧
     bidB.side = bidB2.side ∧ bidB.trader_address = bidB2.trader_address) ∧
    eip712Encode bidB = eip712Encode bidB2 :=
  ⟨⟨rfl, rfl, rfl, rfl, rfl⟩, hash_depends_only_on_five_fields bidB bidB2 rfl rfl rfl rfl rfl⟩

/-- A decimal string containing the decimal point makes from_dec_str fail,
whatever digits surround it. -/
theorem fromDecStrAux_dot : ∀ (xs ys : List Char) (acc : Nat),
    fromDecStrAux (xs ++ '.' :: ys) acc = none
  | [], ys, acc => by
    rw [List.nil_append, fromDecStrAux, if_neg (by decide)]
  | x :: xs, ys, acc => by
    rw [List.cons_append, fromDecStrAux]
    by_cases hd : '0' ≤ x ∧ x ≤ '9'
    · rw [if_pos hd]
      by_cases hov : acc * 10 + (x.toNat - 48) < 2 ^ 256
      · rw [if_pos hov]; exact fromDecStrAux_dot xs ys _
      · rw [if_neg hov]
    · rw [if_neg hd]

/-- A decimal with a nonzero fractional part stringifies with a decimal
point, so decimal_to_u256 unwraps a failed parse: a panic. -/
theorem decimal_to_u256_frac_none (d : Dec) (h : d.m % (10 ^ d.s : Int) ≠ 0) :
    decimal_to_u256 d = none := by
  have hs : ¬ d.s = 0 := by
    intro h0
    rw [h0] at h
    simp at h
  rw [decimal_to_u256, fromDecStr, Dec.toChars, if_neg hs, ← List.append_assoc]
  exact fromDecStrAux_dot _ _ 0

/-- Claim C10: hashing an order (and with it add_bid and add_ask) is total
only for integer-valued decimals: an order whose amount or price has a
nonzero fractional part stringifies with a decimal point, the
U256::from_dec_str parse fails, and the unwrap panics (none) instead of
returning a result or an error. -/
theorem hash_panics_on_fractional (o : Order) (bk : OrderBook)
    (h : o.amount.m % (10 ^ o.amount.s : Int) ≠ 0 ∨
         o.price.m % (10 ^ o.price.s : Int) ≠ 0) :
    (decimal_to_u256 o.amount = none ∨ decimal_to_u256 o.price = none) ∧
    Order.encode_data o = none ∧ eip712Encode o = none ∧
    addBid bk o = none ∧ addAsk bk o = none := by
  have henc : Order.encode_data o = none := by
    rcases h with h | h
    · rw [Order.encode_data, decimal_to_u256_frac_none o.amount h]; rfl
    · cases ha : decimal_to_u256 o.amount with
      | none => rw [Order.encode_data, ha]; rfl
      | some a => rw [Order.encode_data, ha, decimal_to_u256_frac_none o.price h]; rfl
  have hhs : Order.hash_struct o = none := by rw [Order.hash_struct, henc]; rfl
  have hh : eip712Encode o = none := by rw [eip712Encode, eip712EncodeIn, hhs]; rfl
  refine ⟨?_, henc, hh, ?_, ?_⟩
  · rcases h with h | h
    · exact Or.inl (decimal_to_u256_frac_none _ h)
    · exact Or.inr (decimal_to_u256_frac_none _ h)
  · rw [addBid, hh]; rfl
  · rw [addAsk, hh]; rfl

/-- Witness for the C10 theorem at the order with amount 1.5. -/
theorem hash_panics_on_fractional_witness :
    (fracOrder.amount.m % (10 ^ fracOrder.amount.s : Int) ≠ 0 ∨
     fracOrder.price.m % (10 ^ fracOrder.price.s : Int) ≠ 0) ∧
    ((decimal_to_u256 fracOrder.amount = none ∨ decimal_to_u256 fracOrder.price = none) ∧
     Order.encode_data fracOrder = none ∧ eip712Encode fracOrder = none ∧
     addBid emptyBook fracOrder = none ∧ addAsk emptyBook fracOrder = none) :=
  ⟨Or.inl (by decide), hash_panics_on_fractional fracOrder emptyBook (Or.inl (by decide))⟩

end Derivadex
